import Mathlib

/-!
Shallow embedding of the `daily_stock_analysis` repository, covering the
Chan-Lun analyzer (`src/analyzers/chanlun_analyzer.py`) and parts of the
data-provider layer (`src/data_provider/*_fetcher.py`).  Python floats are
modelled as `ℚ`, Python lists as `List`, Python `str` as `String` (or
`List Char` where character-level operations of the source matter), and
fallible paths as `Option`/`Except`.  Each definition is a direct
translation of the function of the same name in the source.
-/

/-- `FenXingType` enum from `chanlun_analyzer.py` (TOP / BOTTOM / NONE). -/
inductive FenXingType where
  | top
  | bottom
  | noneType
  deriving DecidableEq

/-- `TrendType` enum from `chanlun_analyzer.py` (UP / DOWN / CONSOLIDATION). -/
inductive TrendType where
  | up
  | down
  | consolidation
  deriving DecidableEq

/-- `BuySellPointType` enum from `chanlun_analyzer.py`. -/
inductive BuySellPointType where
  | buy1
  | buy2
  | buy3
  | sell1
  | sell2
  | sell3
  deriving DecidableEq

/-- The `.value` string of each `BuySellPointType` member in the source. -/
def BuySellPointType.value : BuySellPointType → String
  | .buy1 => "第一类买点"
  | .buy2 => "第二类买点"
  | .buy3 => "第三类买点"
  | .sell1 => "第一类卖点"
  | .sell2 => "第二类卖点"
  | .sell3 => "第三类卖点"

/-- `FenXing` dataclass: index, date, price, type, high, low, close. -/
structure FenXing where
  index : ℕ
  date : String
  price : ℚ
  type : FenXingType
  high : ℚ
  low : ℚ
  close : ℚ
  deriving DecidableEq

/-- `Bi` dataclass: start/end fenxing, direction ("up"/"down"), strength, length.
`length` is `ℤ` because the source computes it with Python integer subtraction. -/
structure Bi where
  start_fenxing : FenXing
  end_fenxing : FenXing
  direction : String
  strength : ℚ
  length : ℤ
  deriving DecidableEq

/-- `ZhongShu` dataclass: upper/lower edge, stroke-index span, level label, stroke count. -/
structure ZhongShu where
  high : ℚ
  low : ℚ
  start_index : ℕ
  end_index : ℕ
  level : String
  bi_count : ℕ
  deriving DecidableEq

/-- `BuySellPoint` dataclass. -/
structure BuySellPoint where
  index : ℕ
  date : String
  price : ℚ
  type : BuySellPointType
  confidence : ℚ
  reason : String
  deriving DecidableEq

/-- One row of the K-line `DataFrame`: the fields the analyzer reads. -/
structure BarRow where
  date : String
  open_ : ℚ
  high : ℚ
  low : ℚ
  close : ℚ
  deriving DecidableEq

/-- The input `DataFrame` of `ChanLunAnalyzer.analyze`: rows plus the set of
column labels (column presence is what the precondition check inspects). -/
structure DataFrame where
  columns : List String
  rows : List BarRow

/-- The dict returned by `_analyze_beichi`. -/
structure BeichiReport where
  has_beichi : Bool
  type : Option String
  strength : ℚ
  deriving DecidableEq

/-- The non-empty dict returned by `ChanLunAnalyzer.analyze`. -/
structure AnalysisResult where
  fenxings : List FenXing
  bis : List Bi
  zhongshus : List ZhongShu
  buy_sell_points : List BuySellPoint
  trend_type : TrendType
  beichi_analysis : BeichiReport
  chanlun_score : ℚ
  summary : String

/-- Classification of bar position `i` inside the loop of `_identify_fenxings`
(lines 193-234): top fractal, bottom fractal, or nothing. -/
def classifyFenXing (prev cur nxt : BarRow) (i : ℕ) : Option FenXing :=
  if cur.high > prev.high ∧ cur.high > nxt.high ∧ cur.low > prev.low ∧ cur.low > nxt.low then
    some ⟨i, cur.date, cur.high, .top, cur.high, cur.low, cur.close⟩
  else if cur.low < prev.low ∧ cur.low < nxt.low ∧ cur.high < prev.high ∧ cur.high < nxt.high then
    some ⟨i, cur.date, cur.low, .bottom, cur.high, cur.low, cur.close⟩
  else
    none

/-- The raw detection loop of `_identify_fenxings`:
`for i in range(1, len(df) - 1)` classifying each interior position. -/
def identifyFenxingsRaw (bars : List BarRow) : List FenXing :=
  (List.range bars.length).filterMap fun i =>
    if i = 0 then none
    else
      match bars[i-1]?, bars[i]?, bars[i+1]? with
      | some prev, some cur, some nxt => classifyFenXing prev cur nxt i
      | _, _, _ => none

/-- Loop body state of `_filter_adjacent_fenxings`: `last` is the last element
of the accumulated `filtered` list (which the Python loop may overwrite in
place); committed elements precede it. -/
def filterAdjacentAux (last : FenXing) : List FenXing → List FenXing
  | [] => [last]
  | c :: rest =>
    if c.type = last.type then
      filterAdjacentAux
        (if (if c.type = .top then c.price > last.price else c.price < last.price) then c else last)
        rest
    else
      last :: filterAdjacentAux c rest

/-- `_filter_adjacent_fenxings`: collapse runs of same-type fractals to the
more extreme one (higher price for tops, lower for bottoms). -/
def filterAdjacentFenxings : List FenXing → List FenXing
  | [] => []
  | f :: rest => filterAdjacentAux f rest

/-- `_identify_fenxings`: raw detection followed by the adjacency filter. -/
def identifyFenxings (bars : List BarRow) : List FenXing :=
  filterAdjacentFenxings (identifyFenxingsRaw bars)

/-- The per-pair step of `_construct_bis`: a stroke for an opposite-type
fractal pair, `none` for an equal-type (invalid) pair. -/
def mkBi (start_ end_ : FenXing) : Option Bi :=
  if start_.type = .bottom ∧ end_.type = .top then
    some ⟨start_, end_, "up", |end_.price - start_.price| / start_.price,
      (end_.index : ℤ) - (start_.index : ℤ)⟩
  else if start_.type = .top ∧ end_.type = .bottom then
    some ⟨start_, end_, "down", |end_.price - start_.price| / start_.price,
      (end_.index : ℤ) - (start_.index : ℤ)⟩
  else
    none

/-- `_construct_bis`: iterate over consecutive fractal pairs, emitting a
stroke for each valid pair and skipping invalid ones. -/
def constructBis : List FenXing → List Bi
  | a :: b :: rest =>
    match mkBi a b with
    | some bi => bi :: constructBis (b :: rest)
    | none => constructBis (b :: rest)
  | _ => []

/-- Extension loop of `_try_construct_zhongshu` (lines 344-356): starting at
stroke index `j`, keep extending while both endpoints of the next stroke lie
inside `[low, high]`; returns the final `(end_idx, bi_count)`. -/
def zhongshuExtend (high low : ℚ) : List Bi → ℕ → ℕ → ℕ → ℕ × ℕ
  | [], _, e, c => (e, c)
  | bi :: rest, j, e, c =>
    if bi.start_fenxing.price ≤ high ∧ bi.start_fenxing.price ≥ low ∧
        bi.end_fenxing.price ≤ high ∧ bi.end_fenxing.price ≥ low then
      zhongshuExtend high low rest (j + 1) j (c + 1)
    else
      (e, c)

/-- `_try_construct_zhongshu`: attempt to build a central pivot from three
consecutive strokes starting at `start_idx`.  Note that the source computes
`overlap_high = min(end prices)` and `overlap_low = max(start prices)`. -/
def tryConstructZhongshu (bis : List Bi) (start_idx : ℕ) : Option ZhongShu :=
  if bis.length ≤ start_idx + 2 then none
  else
    match bis.drop start_idx with
    | bi1 :: bi2 :: bi3 :: rest =>
      let overlap1_high := min bi1.end_fenxing.price bi2.end_fenxing.price
      let overlap1_low := max bi1.start_fenxing.price bi2.start_fenxing.price
      let overlap2_high := min bi2.end_fenxing.price bi3.end_fenxing.price
      let overlap2_low := max bi2.start_fenxing.price bi3.start_fenxing.price
      if overlap1_high ≤ overlap1_low ∨ overlap2_high ≤ overlap2_low then none
      else
        let zhongshu_high := min overlap1_high overlap2_high
        let zhongshu_low := max overlap1_low overlap2_low
        if zhongshu_high ≤ zhongshu_low then none
        else
          let ec := zhongshuExtend zhongshu_high zhongshu_low rest (start_idx + 3) (start_idx + 2) 3
          some ⟨zhongshu_high, zhongshu_low, start_idx, ec.1, "5分钟", ec.2⟩
    | _ => none

/-- The `while i < len(bis) - 2` loop of `_identify_zhongshus`.  `fuel` bounds
the iteration count; since `i` strictly increases at every step (on success,
`end_index ≥ i + 2 > i`), `fuel = bis.length` iterations always suffice to
reproduce the Python loop exactly. -/
def identifyZhongshusAux (bis : List Bi) : ℕ → ℕ → List ZhongShu
  | 0, _ => []
  | fuel + 1, i =>
    if i < bis.length - 2 then
      match tryConstructZhongshu bis i with
      | some z => z :: identifyZhongshusAux bis fuel z.end_index
      | none => identifyZhongshusAux bis fuel (i + 1)
    else
      []

/-- `_identify_zhongshus`: needs at least 3 strokes, then scans with the
while loop. -/
def identifyZhongshus (bis : List Bi) : List ZhongShu :=
  if bis.length < 3 then [] else identifyZhongshusAux bis bis.length 0

/-- `_identify_first_class_points`: class-1 buy/sell points around each pivot.
Guarded list indexing of the source (`bis[...]` under explicit bound checks)
is rendered with `·[·]?`; the `none` fallbacks are unreachable for pivots
produced by `_identify_zhongshus`. -/
def identifyFirstClassPoints (bis : List Bi) (zhongshus : List ZhongShu) : List BuySellPoint :=
  zhongshus.flatMap fun zs =>
    (if zs.start_index > 0 then
      match bis[zs.start_index - 1]? with
      | some prev_bi =>
        if prev_bi.direction = "down" then
          match bis[zs.end_index + 1]? with
          | some next_bi =>
            if next_bi.direction = "up" then
              [⟨next_bi.start_fenxing.index, next_bi.start_fenxing.date,
                next_bi.start_fenxing.price, .buy1, 8/10, "下跌趋势结束，中枢后向上突破"⟩]
            else []
          | none => []
        else []
      | none => []
    else []) ++
    (match bis[zs.end_index + 1]? with
    | some next_bi =>
      if next_bi.direction = "down" then
        [⟨next_bi.start_fenxing.index, next_bi.start_fenxing.date,
          next_bi.start_fenxing.price, .sell1, 8/10, "上涨趋势结束，开始下跌"⟩]
      else []
    | none => [])

/-- `_identify_second_class_points`: pullback points inside each pivot's
stroke range (`for i in range(zs.start_index, zs.end_index)`). -/
def identifySecondClassPoints (bis : List Bi) (zhongshus : List ZhongShu) : List BuySellPoint :=
  zhongshus.flatMap fun zs =>
    (List.range' zs.start_index (zs.end_index - zs.start_index)).flatMap fun i =>
      match bis[i]?, bis[i+1]? with
      | some bi, some next_bi =>
        if bi.direction = "down" ∧ next_bi.direction = "up" ∧ bi.end_fenxing.price > zs.low then
          [⟨next_bi.start_fenxing.index, next_bi.start_fenxing.date,
            next_bi.start_fenxing.price, .buy2, 6/10, "回调不破中枢下沿"⟩]
        else if bi.direction = "up" ∧ next_bi.direction = "down" ∧ bi.end_fenxing.price < zs.high then
          [⟨next_bi.start_fenxing.index, next_bi.start_fenxing.date,
            next_bi.start_fenxing.price, .sell2, 6/10, "反弹不破中枢上沿"⟩]
        else []
      | _, _ => []

/-- `_identify_third_class_points`: breakout-retest points after each pivot. -/
def identifyThirdClassPoints (bis : List Bi) (zhongshus : List ZhongShu) : List BuySellPoint :=
  zhongshus.flatMap fun zs =>
    match bis[zs.end_index + 1]? with
    | some next_bi =>
      if next_bi.direction = "up" ∧ next_bi.end_fenxing.price > zs.high then
        match bis[zs.end_index + 2]? with
        | some callback_bi =>
          if callback_bi.direction = "down" ∧ callback_bi.end_fenxing.price > zs.high then
            [⟨callback_bi.end_fenxing.index, callback_bi.end_fenxing.date,
              callback_bi.end_fenxing.price, .buy3, 7/10, "向上突破后回调不破中枢"⟩]
          else []
        | none => []
      else if next_bi.direction = "down" ∧ next_bi.end_fenxing.price < zs.low then
        match bis[zs.end_index + 2]? with
        | some rebound_bi =>
          if rebound_bi.direction = "up" ∧ rebound_bi.end_fenxing.price < zs.low then
            [⟨rebound_bi.end_fenxing.index, rebound_bi.end_fenxing.date,
              rebound_bi.end_fenxing.price, .sell3, 7/10, "向下突破后反弹不破中枢"⟩]
          else []
        | none => []
      else []
    | none => []

/-- Stable insertion step for `sorted(points, key=lambda x: x.index)`:
the new element goes before the first strictly greater key, preserving the
original order of equal keys. -/
def insertByIndex (p : BuySellPoint) : List BuySellPoint → List BuySellPoint
  | [] => [p]
  | q :: rest => if q.index < p.index then q :: insertByIndex p rest else p :: q :: rest

/-- Python's stable `sorted` by the `index` key. -/
def sortByIndex : List BuySellPoint → List BuySellPoint
  | [] => []
  | p :: rest => insertByIndex p (sortByIndex rest)

/-- `_identify_buy_sell_points` (the unused `df` parameter is dropped):
all three signal classes, sorted by bar index. -/
def identifyBuySellPoints (bis : List Bi) (zhongshus : List ZhongShu) : List BuySellPoint :=
  sortByIndex (identifyFirstClassPoints bis zhongshus ++
    identifySecondClassPoints bis zhongshus ++ identifyThirdClassPoints bis zhongshus)

/-- `_analyze_trend_type`: majority direction of the last five strokes with a
1.5x threshold. -/
def analyzeTrendType (bis : List Bi) (zhongshus : List ZhongShu) : TrendType :=
  if bis = [] then .consolidation
  else
    let recent_bis := if bis.length ≥ 5 then bis.drop (bis.length - 5) else bis
    let up_count := recent_bis.countP fun bi => bi.direction = "up"
    let down_count := recent_bis.countP fun bi => bi.direction = "down"
    if (up_count : ℚ) > (down_count : ℚ) * (3/2) then .up
    else if (down_count : ℚ) > (up_count : ℚ) * (3/2) then .down
    else .consolidation

/-- `_analyze_beichi` (the unused `df` parameter is dropped): compare the last
two strokes; `bis[-1]`/`bis[-2]` are read off the reversed list. -/
def analyzeBeichi (bis : List Bi) : BeichiReport :=
  match bis.reverse with
  | last_bi :: prev_bi :: _ =>
    if last_bi.direction ≠ prev_bi.direction then ⟨false, none, 0⟩
    else
      let price_diff := |last_bi.strength - prev_bi.strength| / prev_bi.strength
      if last_bi.direction = "up" then
        if last_bi.end_fenxing.price > prev_bi.end_fenxing.price ∧
            last_bi.strength < prev_bi.strength * (8/10) then
          ⟨true, some "上涨背驰", price_diff⟩
        else ⟨false, none, price_diff⟩
      else
        if last_bi.end_fenxing.price < prev_bi.end_fenxing.price ∧
            last_bi.strength < prev_bi.strength * (8/10) then
          ⟨true, some "下跌背驰", price_diff⟩
        else ⟨false, none, price_diff⟩
  | _ => ⟨false, none, 0⟩

/-- Python's substring test `needle in hay` on character lists: does
`needle` occur contiguously inside `hay`? -/
def containsSub (needle : List Char) : List Char → Bool
  | [] => needle.isEmpty
  | c :: rest => needle.isPrefixOf (c :: rest) || containsSub needle rest

/-- Python's `"买" in s` / `"卖" in s` membership test. -/
def pyInStr (needle : List Char) (s : String) : Bool :=
  containsSub needle s.toList

/-- The character list of the string literal `"买"`. -/
def buyChar : List Char := "买".toList

/-- The character list of the string literal `"卖"`. -/
def sellChar : List Char := "卖".toList

/-- `_calculate_chanlun_score`: base 50, trend and divergence adjustments,
then ±5 per buy/sell point among the points whose *bar index* is at least
`len(points) - 10` (this is the filter the source actually applies), clamped
to [0, 100]. -/
def calculateChanlunScore (trend_type : TrendType) (beichi_analysis : BeichiReport)
    (buy_sell_points : List BuySellPoint) : ℚ :=
  let score0 : ℚ := 50
  let score1 :=
    if trend_type = .up then score0 + 20
    else if trend_type = .down then score0 - 20
    else score0
  let score2 :=
    if beichi_analysis.has_beichi then
      if beichi_analysis.type = some "下跌背驰" then score1 + 15
      else if beichi_analysis.type = some "上涨背驰" then score1 - 15
      else score1
    else score1
  let recent_points := buy_sell_points.filter fun p =>
    (p.index : ℤ) ≥ (buy_sell_points.length : ℤ) - 10
  let buy_points := recent_points.filter fun p => pyInStr buyChar p.type.value
  let sell_points := recent_points.filter fun p => pyInStr sellChar p.type.value
  let score3 := if buy_points ≠ [] then score2 + buy_points.length * 5 else score2
  let score4 := if sell_points ≠ [] then score3 - sell_points.length * 5 else score3
  max 0 (min 100 score4)

/-- `_generate_summary`: join the non-empty count fragments with `，`. -/
def generateSummary (fenxings : List FenXing) (bis : List Bi) (zhongshus : List ZhongShu)
    (buy_sell_points : List BuySellPoint) : String :=
  let parts : List String :=
    (if fenxings ≠ [] then ["识别到" ++ toString fenxings.length ++ "个分型"] else []) ++
    (if bis ≠ [] then ["构造了" ++ toString bis.length ++ "笔"] else []) ++
    (if zhongshus ≠ [] then ["发现" ++ toString zhongshus.length ++ "个中枢"] else []) ++
    (if buy_sell_points ≠ [] then
      ["识别到" ++
        toString (buy_sell_points.countP fun p => pyInStr buyChar p.type.value) ++
        "个买点，" ++
        toString (buy_sell_points.countP fun p => pyInStr sellChar p.type.value) ++
        "个卖点"]
    else [])
  if parts ≠ [] then String.intercalate "，" parts else "缠论分析完成"

/-- The required columns checked by `analyze`. -/
def requiredCols : List String := ["date", "open", "high", "low", "close"]

/-- `ChanLunAnalyzer.analyze`: validate the input (empty, fewer than 10 rows,
missing required columns all yield the empty dict, modelled as `none`), then
run the full pipeline. -/
def analyze (df : DataFrame) : Option AnalysisResult :=
  if df.rows.isEmpty then none
  else if df.rows.length < 10 then none
  else if (requiredCols.filter fun c => ¬ df.columns.contains c) ≠ [] then none
  else
    let fenxings := identifyFenxings df.rows
    let bis := constructBis fenxings
    let zhongshus := identifyZhongshus bis
    let buy_sell_points := identifyBuySellPoints bis zhongshus
    let trend_type := analyzeTrendType bis zhongshus
    let beichi_analysis := analyzeBeichi bis
    let score := calculateChanlunScore trend_type beichi_analysis buy_sell_points
    some ⟨fenxings, bis, zhongshus, buy_sell_points, trend_type, beichi_analysis, score,
      generateSummary fenxings bis zhongshus buy_sell_points⟩

/-- Python `str.strip()` on a character list: drop whitespace from both ends. -/
def pyStrip (s : List Char) : List Char :=
  ((s.dropWhile Char.isWhitespace).reverse.dropWhile Char.isWhitespace).reverse

/-- Python `str.upper()` (ASCII behaviour, which is all the source feeds it). -/
def pyUpper (s : List Char) : List Char :=
  s.map Char.toUpper

/-- Python `str.lower()` (ASCII behaviour). -/
def pyLower (s : List Char) : List Char :=
  s.map Char.toLower

/-- Scan step of Python `str.replace(pat, rep)`.  `fuel` only bounds the
recursion depth so that the definition is structural (and hence reduces in
the kernel); every step consumes at least one character, so `fuel = s.length`
reproduces the unbounded scan exactly. -/
def pyReplaceAux (pat rep : List Char) : ℕ → List Char → List Char
  | 0, s => s
  | _, [] => []
  | fuel + 1, c :: rest =>
    if pat ≠ [] ∧ pat.isPrefixOf (c :: rest) then
      rep ++ pyReplaceAux pat rep fuel (rest.drop (pat.length - 1))
    else
      c :: pyReplaceAux pat rep fuel rest

/-- Python `str.replace(pat, rep)`: replace all non-overlapping occurrences
left to right, resuming the scan after each replacement.  The source only
ever calls it with non-empty patterns, so the empty pattern is mapped to the
identity. -/
def pyReplace (pat rep s : List Char) : List Char :=
  pyReplaceAux pat rep s.length s

/-- Python `str.startswith((p1, p2, ...))`: true if any listed prefix matches. -/
def startsWithAny (ps : List (List Char)) (s : List Char) : Bool :=
  ps.any fun p => p.isPrefixOf s

/-- The Shanghai prefix tuple `('600', '601', '603', '688')` shared by the
adapters' `_convert_stock_code`. -/
def shPrefixes : List (List Char) :=
  [['6','0','0'], ['6','0','1'], ['6','0','3'], ['6','8','8']]

/-- The Shenzhen prefix tuple `('000', '002', '300', '301')` used by
`TencentFetcher._convert_stock_code`. -/
def szPrefixesTencent : List (List Char) :=
  [['0','0','0'], ['0','0','2'], ['3','0','0'], ['3','0','1']]

/-- The Shenzhen prefix tuple `('000', '002', '300')` used by
`TushareFetcher._convert_stock_code` and `YfinanceFetcher._convert_stock_code`
(note: no `'301'`). -/
def szPrefixesShort : List (List Char) :=
  [['0','0','0'], ['0','0','2'], ['3','0','0']]

/-- `TushareFetcher._convert_stock_code`, returning the converted code and
whether the `logger.warning` default branch was taken. -/
def tushareConvertStockCode (stock_code : List Char) : List Char × Bool :=
  let code := pyStrip stock_code
  if code.contains '.' then (pyUpper code, false)
  else if startsWithAny shPrefixes code then (code ++ ['.','S','H'], false)
  else if startsWithAny szPrefixesShort code then (code ++ ['.','S','Z'], false)
  else (code ++ ['.','S','Z'], true)

/-- `TencentFetcher._convert_stock_code`, returning the converted code and
whether the warning branch was taken. -/
def tencentConvertStockCode (stock_code : List Char) : List Char × Bool :=
  let code := pyStrip stock_code
  if startsWithAny [['s','h'], ['s','z']] code then (pyLower code, false)
  else
    let code2 := pyReplace ['.','s','z'] []
      (pyReplace ['.','s','h'] [] (pyReplace ['.','S','Z'] [] (pyReplace ['.','S','H'] [] code)))
    if startsWithAny shPrefixes code2 then (['s','h'] ++ code2, false)
    else if startsWithAny szPrefixesTencent code2 then (['s','z'] ++ code2, false)
    else (['s','z'] ++ code2, true)

/-- `YfinanceFetcher._convert_stock_code`, returning the converted code and
whether the warning branch was taken. -/
def yfinanceConvertStockCode (stock_code : List Char) : List Char × Bool :=
  let code := pyStrip stock_code
  if containsSub ['.','S','S'] (pyUpper code) || containsSub ['.','S','Z'] (pyUpper code) then
    (pyUpper code, false)
  else
    let code2 := pyReplace ['.','s','h'] [] (pyReplace ['.','S','H'] [] code)
    if startsWithAny shPrefixes code2 then (code2 ++ ['.','S','S'], false)
    else if startsWithAny szPrefixesShort code2 then (code2 ++ ['.','S','Z'], false)
    else (code2 ++ ['.','S','Z'], true)

/-- A raw row of the Tushare `daily()` response
(ts_code, trade_date, open, high, low, close, pre_close, change, pct_chg, vol, amount). -/
structure TushareRawRow where
  ts_code : String
  trade_date : String
  open_ : ℚ
  high : ℚ
  low : ℚ
  close : ℚ
  pre_close : ℚ
  change : ℚ
  pct_chg : ℚ
  vol : ℚ
  amount : ℚ
  deriving DecidableEq

/-- A canonical output row.  Its fields are exactly
`['code'] + STANDARD_COLUMNS`; `STANDARD_COLUMNS` itself lives in
`src/data_provider/base.py`, which is not part of the provided sources.
Modelled from the spec: the canonical column schema of §6 is
`code, date, open, high, low, close, volume, amount, pct_chg`. -/
structure CanonicalRow where
  code : String
  date : String
  open_ : ℚ
  high : ℚ
  low : ℚ
  close : ℚ
  volume : ℚ
  amount : ℚ
  pct_chg : ℚ
  deriving DecidableEq

/-- Model of `pd.to_datetime(date, format='%Y%m%d')` rendered back as an ISO
`YYYY-MM-DD` string. -/
def tushareFormatDate (s : String) : String :=
  s.take 4 ++ "-" ++ (s.drop 4).take 2 ++ "-" ++ s.drop 6

/-- Row-level content of `TushareFetcher._normalize_data`: rename
`trade_date → date` and `vol → volume`, convert the date, multiply volume by
100 (lots → shares) and amount by 1000 (thousand-yuan → yuan), attach the
stock code, and keep exactly the canonical columns. -/
def tushareNormalizeRow (stock_code : String) (r : TushareRawRow) : CanonicalRow :=
  { code := stock_code
    date := tushareFormatDate r.trade_date
    open_ := r.open_
    high := r.high
    low := r.low
    close := r.close
    volume := r.vol * 100
    amount := r.amount * 1000
    pct_chg := r.pct_chg }

/-- `TushareFetcher._normalize_data` over the whole frame. -/
def tushareNormalizeData (df : List TushareRawRow) (stock_code : String) : List CanonicalRow :=
  df.map (tushareNormalizeRow stock_code)

/-- Result object of `bs.login()` / `bs.logout()`. -/
structure BSResult where
  error_code : String
  error_msg : String
  deriving DecidableEq

/-- A Python exception, split into `DataFetchError` and everything else
(the `isinstance` test in `_fetch_raw_data` distinguishes the two). -/
inductive PyExc where
  | dataFetch (msg : String)
  | other (msg : String)
  deriving DecidableEq

/-- Observable calls on the baostock module, in execution order. -/
inductive BSEvent where
  | loginCall
  | queryCall
  | logoutCall
  deriving DecidableEq

/-- Result object of `bs.query_history_k_data_plus`, with the rows already
drained from the `rs.next()` cursor. -/
structure BSQueryResult where
  error_code : String
  error_msg : String
  fields : List String
  rows : List (List String)
  deriving DecidableEq

/-- `_baostock_session`: run `body` between `bs.login()` and `bs.logout()`.
The generator's `try`/`finally` guarantees the logout call on every path:
after a normal body, after a raised `DataFetchError` when
`login_result.error_code != '0'`, after an exception raised by `bs.login()`
itself, and after an exception from the body.  The logout call's own outcome
(`logoutOutcome`) is swallowed by the inner `try`/`except` and only logged,
so it cannot alter the result. -/
def baostockSession {α : Type} (loginAct : Except PyExc BSResult)
    (logoutOutcome : Except PyExc BSResult)
    (body : Except PyExc α × List BSEvent) : Except PyExc α × List BSEvent :=
  match loginAct with
  | .error e => (.error e, [.loginCall, .logoutCall])
  | .ok lr =>
    if lr.error_code ≠ "0" then
      (.error (.dataFetch ("Baostock 登录失败: " ++ lr.error_msg)), [.loginCall, .logoutCall])
    else
      match logoutOutcome with
      | _ => (body.1, .loginCall :: (body.2 ++ [.logoutCall]))

/-- The `with`-body of `BaostockFetcher._fetch_raw_data`: issue the query,
check `rs.error_code`, drain the rows, fail on an empty result, and wrap any
non-`DataFetchError` exception. -/
def baostockQueryBody (queryAct : Except PyExc BSQueryResult) (stock_code : String) :
    Except PyExc (List (List String) × List String) × List BSEvent :=
  match queryAct with
  | .error e =>
    (match e with
      | .dataFetch m => .error (.dataFetch m)
      | .other m => .error (.dataFetch ("Baostock 获取数据失败: " ++ m)), [.queryCall])
  | .ok rs =>
    (if rs.error_code ≠ "0" then
      .error (.dataFetch ("Baostock 查询失败: " ++ rs.error_msg))
    else if rs.rows = [] then
      .error (.dataFetch ("Baostock 未查询到 " ++ stock_code ++ " 的数据"))
    else
      .ok (rs.rows, rs.fields), [.queryCall])

/-- `BaostockFetcher._fetch_raw_data` for one attempt: the query body wrapped
in the login/logout session bracket. -/
def baostockFetchRawData (loginAct logoutOutcome : Except PyExc BSResult)
    (queryAct : Except PyExc BSQueryResult) (stock_code : String) :
    Except PyExc (List (List String) × List String) × List BSEvent :=
  baostockSession loginAct logoutOutcome (baostockQueryBody queryAct stock_code)

/-- The fractal-scenario bars: highs [10, 11, 12, 11, 10], lows
[9, 10, 11, 10, 9] (opens and closes are arbitrary values inside the range). -/
def fractalSampleBars : List BarRow :=
  [⟨"d0", 9, 10, 9, 9⟩, ⟨"d1", 10, 11, 10, 10⟩, ⟨"d2", 11, 12, 11, 11⟩,
   ⟨"d3", 10, 11, 10, 10⟩, ⟨"d4", 9, 10, 9, 9⟩]

/-- The stroke-scenario fractals: Bottom@0 price 8, Top@2 price 12,
Bottom@4 price 9. -/
def strokeSampleFenxings : List FenXing :=
  [⟨0, "d0", 8, .bottom, 9, 8, 8⟩, ⟨2, "d2", 12, .top, 12, 11, 12⟩,
   ⟨4, "d4", 9, .bottom, 10, 9, 9⟩]

/-- Alternating fractals whose strokes have endpoint price ranges
[8,12], [12,9], [9,11]: the pivot-scenario input. -/
def pivotSampleFenxings : List FenXing :=
  [⟨0, "d0", 8, .bottom, 9, 8, 8⟩, ⟨2, "d2", 12, .top, 12, 11, 12⟩,
   ⟨4, "d4", 9, .bottom, 10, 9, 9⟩, ⟨6, "d6", 11, .top, 11, 10, 11⟩]

/-- The three pivot-scenario strokes, built by the stroke builder itself. -/
def pivotSampleBis : List Bi :=
  constructBis pivotSampleFenxings

/-- Bars whose raw fractals are Bottom@1 price 8, Top@3 price 14,
Bottom@5 price 7 (highs [13,9,12,14,12,10,13], lows [11,8,10,12,10,7,11]). -/
def altSampleBars : List BarRow :=
  [⟨"b0", 11, 13, 11, 11⟩, ⟨"b1", 8, 9, 8, 8⟩, ⟨"b2", 10, 12, 10, 10⟩,
   ⟨"b3", 12, 14, 12, 12⟩, ⟨"b4", 10, 12, 10, 10⟩, ⟨"b5", 7, 10, 7, 7⟩,
   ⟨"b6", 11, 13, 11, 11⟩]

/-- A 6-digit numeric code with prefix 301 (ChiNext board). -/
def code301 : List Char := ['3', '0', '1', '2', '3', '4']

/-- The ten decimal digit characters; a "6-digit numeric stock code" is a
6-character string over this alphabet. -/
def digitChars : List Char := ['0', '1', '2', '3', '4', '5', '6', '7', '8', '9']

/-- A 3-row input frame with all required columns: too short for `analyze`. -/
def shortSampleDf : DataFrame :=
  ⟨["date", "open", "high", "low", "close"],
   [⟨"d0", 1, 2, 1, 1⟩, ⟨"d1", 1, 2, 1, 1⟩, ⟨"d2", 1, 2, 1, 1⟩]⟩

/-- Two same-direction ("down") strokes where the later one makes a lower low
(5 < 6) with less than 0.8x the strength (1/10 < 2/5): a divergence input. -/
def beichiSampleBis : List Bi :=
  [⟨⟨0, "a", 8, .top, 8, 7, 8⟩, ⟨2, "b", 6, .bottom, 7, 6, 6⟩, "down", 1/2, 2⟩,
   ⟨⟨4, "c", 7, .top, 7, 6, 7⟩, ⟨6, "d", 5, .bottom, 6, 5, 5⟩, "down", 1/10, 2⟩]

/-- Eleven class-1 buy points at bar indices 1..11: every bar index is
≥ 11 − 10, so the source's "recent" filter keeps all eleven. -/
def elevenBuyPoints : List BuySellPoint :=
  (List.range 11).map fun k => ⟨k + 1, "d", 1, .buy1, 8/10, "r"⟩

/-- A Tushare raw row with vol = 1000 (lots) and amount = 5000
(thousand-yuan): the unit-conversion scenario input. -/
def tushareSampleRow : TushareRawRow :=
  ⟨"000001.SZ", "20240105", 10, 11, 9, 10, 10, 0, 0, 1000, 5000⟩

/-- The scoring rule in the words of the spec (§4.6.7) and of claim C2:
±5 per buy/sell signal among the *final 10 signals* of the list, trend and
divergence adjustments on a base of 50, clamped to [0, 100].  Used only to
compare the claimed rule with `calculateChanlunScore`. -/
def specFinalTenScore (trend_type : TrendType) (beichi_analysis : BeichiReport)
    (buy_sell_points : List BuySellPoint) : ℚ :=
  let finalTen := buy_sell_points.drop (buy_sell_points.length - 10)
  max 0 (min 100 (50 +
    (if trend_type = .up then 20 else if trend_type = .down then -20 else 0) +
    (if beichi_analysis.has_beichi ∧ beichi_analysis.type = some "下跌背驰" then 15
     else if beichi_analysis.has_beichi ∧ beichi_analysis.type = some "上涨背驰" then -15
     else 0) +
    5 * (finalTen.countP fun p => pyInStr buyChar p.type.value) -
    5 * (finalTen.countP fun p => pyInStr sellChar p.type.value)))

/-- A fractal produced by `classifyFenXing` is a top or a bottom, never
`NONE`, and carries the bar position it was found at. -/
theorem classifyFenXing_some {prev cur nxt : BarRow} {i : ℕ} {f : FenXing}
    (h : classifyFenXing prev cur nxt i = some f) :
    f.type ≠ FenXingType.noneType ∧ f.index = i := by
  unfold classifyFenXing at h
  split_ifs at h <;> simp only [Option.some.injEq] at h <;> subst h <;> simp

/-- Every raw fractal is a top or a bottom. -/
theorem identifyFenxingsRaw_type_ne {bars : List BarRow} {f : FenXing}
    (h : f ∈ identifyFenxingsRaw bars) : f.type ≠ FenXingType.noneType := by
  unfold identifyFenxingsRaw at h
  rw [List.mem_filterMap] at h
  obtain ⟨i, _, hbody⟩ := h
  by_cases hi : i = 0
  · simp [hi] at hbody
  · simp only [if_neg hi] at hbody
    rcases h1 : bars[i-1]? with _ | prev <;> rcases h2 : bars[i]? with _ | cur <;>
      rcases h3 : bars[i+1]? with _ | nxt <;> simp [h1, h2, h3] at hbody
    exact (classifyFenXing_some hbody).1

/-- Every element the adjacency filter keeps is the tracked `last` element or
comes from the remaining input. -/
theorem filterAdjacentAux_mem : ∀ (l : List FenXing) (last x : FenXing),
    x ∈ filterAdjacentAux last l → x = last ∨ x ∈ l := by
  intro l
  induction l with
  | nil => intro last x hx; simp [filterAdjacentAux] at hx; exact Or.inl hx
  | cons c rest ih =>
    intro last x hx
    unfold filterAdjacentAux at hx
    by_cases ht : c.type = last.type
    · simp only [if_pos ht] at hx
      rcases ih _ x hx with h | h
      · by_cases hrepl : (if c.type = FenXingType.top then c.price > last.price
          else c.price < last.price)
        · rw [if_pos hrepl] at h; exact Or.inr (by simp [h])
        · rw [if_neg hrepl] at h; exact Or.inl h
      · exact Or.inr (List.mem_cons_of_mem _ h)
    · simp only [if_neg ht, List.mem_cons] at hx
      rcases hx with h | h
      · exact Or.inl h
      · rcases ih _ x h with h2 | h2
        · exact Or.inr (by simp [h2])
        · exact Or.inr (List.mem_cons_of_mem _ h2)

/-- The filter's output starts with an element of the same type as the
tracked `last` element. -/
theorem filterAdjacentAux_head : ∀ (l : List FenXing) (last : FenXing),
    ∀ h ∈ (filterAdjacentAux last l).head?, h.type = last.type := by
  intro l
  induction l with
  | nil => intro last h hh; simp [filterAdjacentAux] at hh; simp [hh]
  | cons c rest ih =>
    intro last h hh
    unfold filterAdjacentAux at hh
    by_cases ht : c.type = last.type
    · simp only [if_pos ht] at hh
      have := ih _ h hh
      by_cases hrepl : (if c.type = FenXingType.top then c.price > last.price
        else c.price < last.price)
      · rw [if_pos hrepl] at this; rw [this, ht]
      · rwa [if_neg hrepl] at this
    · simp only [if_neg ht, List.head?_cons, Option.mem_some_iff] at hh
      rw [← hh]

/-- The adjacency filter never keeps two consecutive fractals of the same
type. -/
theorem filterAdjacentAux_chain : ∀ (l : List FenXing) (last : FenXing),
    List.Chain' (fun a b => a.type ≠ b.type) (filterAdjacentAux last l) := by
  intro l
  induction l with
  | nil => intro last; simp [filterAdjacentAux]
  | cons c rest ih =>
    intro last
    unfold filterAdjacentAux
    by_cases ht : c.type = last.type
    · simp only [if_pos ht]; exact ih _
    · simp only [if_neg ht]
      rw [List.chain'_cons']
      refine ⟨fun y hy => ?_, ih c⟩
      rw [filterAdjacentAux_head rest c y hy]
      exact fun hcontra => ht hcontra.symm

/-- Unfolding equation of `constructBis` on two or more fractals. -/
theorem constructBis_cons_cons (a b : FenXing) (rest : List FenXing) :
    constructBis (a :: b :: rest) =
      match mkBi a b with
      | some bi => bi :: constructBis (b :: rest)
      | none => constructBis (b :: rest) := rfl

/-- An opposite-type pair of non-`NONE` fractals always yields a stroke with
those fractals as endpoints. -/
theorem mkBi_of_opposite {a b : FenXing} (ha : a.type ≠ FenXingType.noneType)
    (hb : b.type ≠ FenXingType.noneType) (hab : a.type ≠ b.type) :
    ∃ bi, mkBi a b = some bi ∧ bi.start_fenxing = a ∧ bi.end_fenxing = b := by
  cases hta : a.type <;> cases htb : b.type
  · exact absurd (hta.trans htb.symm) hab
  · exact ⟨⟨a, b, "down", |b.price - a.price| / a.price, (b.index : ℤ) - (a.index : ℤ)⟩,
      by simp [mkBi, hta, htb], rfl, rfl⟩
  · exact absurd htb hb
  · exact ⟨⟨a, b, "up", |b.price - a.price| / a.price, (b.index : ℤ) - (a.index : ℤ)⟩,
      by simp [mkBi, hta, htb], rfl, rfl⟩
  · exact absurd (hta.trans htb.symm) hab
  · exact absurd htb hb
  · exact absurd hta ha
  · exact absurd hta ha
  · exact absurd hta ha

/-- On a type-alternating list of top/bottom fractals the stroke builder
skips nothing: it emits one stroke per consecutive pair. -/
theorem constructBis_length_alt : ∀ (l : List FenXing),
    List.Chain' (fun a b => a.type ≠ b.type) l →
    (∀ f ∈ l, f.type ≠ FenXingType.noneType) →
    (constructBis l).length = l.length - 1 := by
  intro l
  induction l with
  | nil => intro _ _; rfl
  | cons a tail ih =>
    intro hchain hne
    match tail with
    | [] => rfl
    | b :: rest =>
      rw [List.chain'_cons] at hchain
      obtain ⟨bi, hbi, _, _⟩ := mkBi_of_opposite (hne a (by simp)) (hne b (by simp)) hchain.1
      rw [constructBis_cons_cons, hbi]
      simp only [List.length_cons]
      rw [ih hchain.2 (fun f hf => hne f (List.mem_cons_of_mem _ hf))]
      simp

/-- On a type-alternating list of top/bottom fractals, the first stroke the
builder emits starts at the first fractal. -/
theorem constructBis_head : ∀ (a : FenXing) (rest : List FenXing),
    List.Chain' (fun x y => x.type ≠ y.type) (a :: rest) →
    (∀ f ∈ a :: rest, f.type ≠ FenXingType.noneType) →
    ∀ bi ∈ (constructBis (a :: rest)).head?, bi.start_fenxing = a := by
  intro a rest hchain hne bi hbi
  match rest with
  | [] => simp [constructBis] at hbi
  | b :: rest2 =>
    rw [List.chain'_cons] at hchain
    obtain ⟨bi0, hbi0, hs, _⟩ := mkBi_of_opposite (hne a (by simp)) (hne b (by simp)) hchain.1
    rw [constructBis_cons_cons, hbi0] at hbi
    simp only [List.head?_cons, Option.mem_some_iff] at hbi
    rw [← hbi]; exact hs

/-- On a type-alternating list of top/bottom fractals, consecutive strokes
share their middle fractal. -/
theorem constructBis_chain : ∀ (l : List FenXing),
    List.Chain' (fun a b => a.type ≠ b.type) l →
    (∀ f ∈ l, f.type ≠ FenXingType.noneType) →
    List.Chain' (fun x y => x.end_fenxing = y.start_fenxing) (constructBis l) := by
  intro l
  induction l with
  | nil => intro _ _; simp [constructBis]
  | cons a tail ih =>
    intro hchain hne
    match tail with
    | [] => simp [constructBis]
    | b :: rest =>
      rw [List.chain'_cons] at hchain
      obtain ⟨bi, hbi, _, he⟩ := mkBi_of_opposite (hne a (by simp)) (hne b (by simp)) hchain.1
      rw [constructBis_cons_cons, hbi]
      rw [List.chain'_cons']
      constructor
      · intro y hy
        rw [he, constructBis_head b rest hchain.2
          (fun f hf => hne f (List.mem_cons_of_mem _ hf)) y hy]
      · exact ih hchain.2 (fun f hf => hne f (List.mem_cons_of_mem _ hf))

/-- `Chain'` survives dropping a prefix. -/
theorem chain'_drop {α : Type} {R : α → α → Prop} :
    ∀ (n : ℕ) (l : List α), List.Chain' R l → List.Chain' R (l.drop n) := by
  intro n
  induction n with
  | zero => intro l h; exact h
  | succ n ih => intro l h; rw [← List.tail_drop]; exact (ih l h).tail

/-- When consecutive strokes share their middle fractal, the first overlap
interval computed by `_try_construct_zhongshu` is always empty
(`min` of the end prices ≤ the shared price ≤ `max` of the start prices),
so no central pivot can ever be built. -/
theorem tryConstructZhongshu_none {bis : List Bi}
    (hchain : List.Chain' (fun x y => x.end_fenxing = y.start_fenxing) bis)
    (i : ℕ) : tryConstructZhongshu bis i = none := by
  have hd := chain'_drop i bis hchain
  unfold tryConstructZhongshu
  split
  · rfl
  next =>
    split
    next b1 b2 b3 rest hdrop =>
      rw [hdrop, List.chain'_cons] at hd
      have hc : min b1.end_fenxing.price b2.end_fenxing.price ≤
          max b1.start_fenxing.price b2.start_fenxing.price := by
        calc min b1.end_fenxing.price b2.end_fenxing.price
            ≤ b1.end_fenxing.price := min_le_left _ _
          _ = b2.start_fenxing.price := by rw [hd.1]
          _ ≤ max b1.start_fenxing.price b2.start_fenxing.price := le_max_right _ _
      simp [hc]
    next => rfl

/-- If no start index ever yields a pivot, the scanning loop returns an empty
list whatever its fuel. -/
theorem identifyZhongshusAux_none {bis : List Bi}
    (h : ∀ i, tryConstructZhongshu bis i = none) :
    ∀ (fuel i : ℕ), identifyZhongshusAux bis fuel i = [] := by
  intro fuel
  induction fuel with
  | zero => intro i; rfl
  | succ fuel ih =>
    intro i
    unfold identifyZhongshusAux
    by_cases hi : i < bis.length - 2
    · simp only [if_pos hi, h i]; exact ih (i + 1)
    · simp [hi]

/-- The fractal list handed to the stroke builder never has two consecutive
entries of the same type. -/
theorem identifyFenxings_chain (bars : List BarRow) :
    List.Chain' (fun a b => a.type ≠ b.type) (identifyFenxings bars) := by
  unfold identifyFenxings
  cases identifyFenxingsRaw bars with
  | nil => simp [filterAdjacentFenxings]
  | cons f rest => exact filterAdjacentAux_chain rest f

/-- The fractal list handed to the stroke builder contains only tops and
bottoms. -/
theorem identifyFenxings_type_ne (bars : List BarRow) :
    ∀ g ∈ identifyFenxings bars, g.type ≠ FenXingType.noneType := by
  unfold identifyFenxings
  cases hraw : identifyFenxingsRaw bars with
  | nil => simp [filterAdjacentFenxings]
  | cons f rest =>
    intro g hg
    simp only [filterAdjacentFenxings] at hg
    rcases filterAdjacentAux_mem rest f g hg with h | h
    · have hf : f ∈ identifyFenxingsRaw bars := by
        rw [hraw]; exact List.mem_cons_self f rest
      rw [h]
      exact identifyFenxingsRaw_type_ne hf
    · exact identifyFenxingsRaw_type_ne (by rw [hraw]; exact List.mem_cons_of_mem f h)

/-- When consecutive strokes share their middle fractal, the pivot scan
returns no pivot at all. -/
theorem identifyZhongshus_eq_nil {bis : List Bi}
    (hchain : List.Chain' (fun x y => x.end_fenxing = y.start_fenxing) bis) :
    identifyZhongshus bis = [] := by
  unfold identifyZhongshus
  split
  · rfl
  · exact identifyZhongshusAux_none (fun i => tryConstructZhongshu_none hchain i) _ _

/-- C1: the claim says the central-pivot builder computes stroke overlaps as
[max(min(A), min(B)), min(max(A), max(B))] and emits one pivot with high=11,
low=9, stroke_count=3 on strokes with ranges [8,12], [12,9], [9,11].  The
code instead computes the overlap as [max(start prices), min(end prices)].
Because consecutive strokes always share their middle fractal, that interval
is empty for every stroke list the pipeline can produce, so the builder emits
no pivot at all — in particular none on the claimed scenario. -/
theorem zhongshu_builder_emits_nothing :
    (∀ bars : List BarRow,
      identifyZhongshus (constructBis (identifyFenxings bars)) = []) ∧
    tryConstructZhongshu pivotSampleBis 0 = none ∧
    identifyZhongshus pivotSampleBis = [] := by
  refine ⟨?_, by decide, by decide⟩
  intro bars
  exact identifyZhongshus_eq_nil
    (constructBis_chain _ (identifyFenxings_chain bars) (identifyFenxings_type_ne bars))

/-- C10: the adjacency filter always returns a fractal list in which no two
consecutive fractals share a type, and on such a filtered list of n (≥ 2)
top/bottom fractals the stroke builder skips no pair and emits exactly n − 1
strokes. -/
theorem filter_alternates_and_strokes_count : ∀ bars : List BarRow,
    List.Chain' (fun a b => a.type ≠ b.type) (identifyFenxings bars) ∧
    (2 ≤ (identifyFenxings bars).length →
      (constructBis (identifyFenxings bars)).length = (identifyFenxings bars).length - 1) := by
  intro bars
  exact ⟨identifyFenxings_chain bars, fun _ =>
    constructBis_length_alt _ (identifyFenxings_chain bars) (identifyFenxings_type_ne bars)⟩

/-- C10 witness: on a concrete 7-bar input the filtered list has 3 fractals
and the stroke builder emits exactly 2 strokes. -/
theorem filter_alternates_and_strokes_count_witness :
    2 ≤ (identifyFenxings altSampleBars).length ∧
    (constructBis (identifyFenxings altSampleBars)).length =
      (identifyFenxings altSampleBars).length - 1 :=
  ⟨by decide, (filter_alternates_and_strokes_count altSampleBars).2 (by decide)⟩

/-- C3: `analyze` returns the empty result on an empty frame, on fewer than
10 rows, or when a required column is missing (and, being a total function
here, raises nothing). -/
theorem analyze_empty_on_bad_input : ∀ df : DataFrame,
    (df.rows = [] ∨ df.rows.length < 10 ∨ ∃ c ∈ requiredCols, c ∉ df.columns) →
    analyze df = none := by
  intro df h
  unfold analyze
  rcases h with h | h | ⟨c, hcmem, hnotmem⟩
  · simp [h]
  · by_cases he : df.rows.isEmpty
    · simp [he]
    · simp [he, h]
  · by_cases he : df.rows.isEmpty
    · simp [he]
    · by_cases hlen : df.rows.length < 10
      · simp [he, hlen]
      · have hcfil : c ∈ requiredCols.filter fun c => ¬ df.columns.contains c := by
          rw [List.mem_filter]
          refine ⟨hcmem, ?_⟩
          simp [hnotmem]
        have hfil : (requiredCols.filter fun c => ¬ df.columns.contains c) ≠ [] := by
          intro hnil
          rw [hnil] at hcfil
          exact absurd hcfil (List.not_mem_nil c)
        simp only [he, Bool.false_eq_true, if_false]
        rw [if_neg hlen, if_pos hfil]

/-- C3 witness: a 3-row frame with all required columns yields the empty
result. -/
theorem analyze_empty_on_bad_input_witness : analyze shortSampleDf = none :=
  analyze_empty_on_bad_input shortSampleDf (Or.inr (Or.inl (by decide)))

/-- A fractal with bar position `i` is in the raw detection output exactly
when the classifier emits it at `i`, provided the three bars around `i`
exist. -/
theorem identifyFenxingsRaw_index_iff (bars : List BarRow) (i : ℕ) (p c n : BarRow)
    (h1 : 1 ≤ i) (hp : bars[i-1]? = some p) (hc : bars[i]? = some c)
    (hn : bars[i+1]? = some n) (f : FenXing) :
    (f ∈ identifyFenxingsRaw bars ∧ f.index = i) ↔ classifyFenXing p c n i = some f := by
  constructor
  · rintro ⟨hf, hfi⟩
    unfold identifyFenxingsRaw at hf
    rw [List.mem_filterMap] at hf
    obtain ⟨j, hjr, hj⟩ := hf
    by_cases hj0 : j = 0
    · rw [hj0] at hj; simp at hj
    · rw [if_neg hj0] at hj
      split at hj
      · next prev cur nxt e1 e2 e3 =>
        have hij : j = i := by rw [← hfi, (classifyFenXing_some hj).2]
        subst hij
        rw [hp] at e1; rw [hc] at e2; rw [hn] at e3
        injection e1 with e1; injection e2 with e2; injection e3 with e3
        rw [e1, e2, e3]
        exact hj
      · exact Option.noConfusion hj
  · intro hcl
    refine ⟨?_, (classifyFenXing_some hcl).2⟩
    unfold identifyFenxingsRaw
    rw [List.mem_filterMap]
    have hilen : i < bars.length := by
      rcases List.getElem?_eq_some.mp hc with ⟨hlt, _⟩
      exact hlt
    exact ⟨i, List.mem_range.mpr hilen, by rw [if_neg (by omega), hp, hc, hn]; exact hcl⟩

/-- C4: position i (with both neighbours in range) is marked as a Top fractal
iff its high and low both exceed both neighbours, as a Bottom fractal iff
both inequalities invert, and nothing otherwise; on bars with highs
[10,11,12,11,10] and lows [9,10,11,10,9] the detector produces exactly one
Top fractal, at index 2 with price 12. -/
theorem fractal_marking_rule :
    (∀ (bars : List BarRow) (i : ℕ) (p c n : BarRow),
      1 ≤ i → bars[i-1]? = some p → bars[i]? = some c → bars[i+1]? = some n →
      (((∃ f ∈ identifyFenxingsRaw bars, f.index = i ∧ f.type = FenXingType.top) ↔
          (c.high > p.high ∧ c.high > n.high ∧ c.low > p.low ∧ c.low > n.low)) ∧
       ((∃ f ∈ identifyFenxingsRaw bars, f.index = i ∧ f.type = FenXingType.bottom) ↔
          (c.low < p.low ∧ c.low < n.low ∧ c.high < p.high ∧ c.high < n.high)))) ∧
    identifyFenxings fractalSampleBars = [⟨2, "d2", 12, FenXingType.top, 12, 11, 11⟩] := by
  constructor
  · intro bars i p c n h1 hp hc hn
    constructor
    · constructor
      · rintro ⟨f, hf, hfi, hft⟩
        have hcl := (identifyFenxingsRaw_index_iff bars i p c n h1 hp hc hn f).mp ⟨hf, hfi⟩
        unfold classifyFenXing at hcl
        split_ifs at hcl with hcond1 hcond2
        · exact hcond1
        · simp only [Option.some.injEq] at hcl
          rw [← hcl] at hft
          simp at hft
      · intro hineq
        refine ⟨⟨i, c.date, c.high, FenXingType.top, c.high, c.low, c.close⟩, ?_, rfl, rfl⟩
        refine ((identifyFenxingsRaw_index_iff bars i p c n h1 hp hc hn _).mpr ?_).1
        unfold classifyFenXing
        rw [if_pos hineq]
    · constructor
      · rintro ⟨f, hf, hfi, hft⟩
        have hcl := (identifyFenxingsRaw_index_iff bars i p c n h1 hp hc hn f).mp ⟨hf, hfi⟩
        unfold classifyFenXing at hcl
        split_ifs at hcl with hcond1 hcond2
        · simp only [Option.some.injEq] at hcl
          rw [← hcl] at hft
          simp at hft
        · exact hcond2
      · intro hineq
        refine ⟨⟨i, c.date, c.low, FenXingType.bottom, c.high, c.low, c.close⟩, ?_, rfl, rfl⟩
        refine ((identifyFenxingsRaw_index_iff bars i p c n h1 hp hc hn _).mpr ?_).1
        unfold classifyFenXing
        rw [if_neg (fun hcond => absurd hcond.1 (not_lt.mpr (le_of_lt hineq.2.2.1))),
          if_pos hineq]
  · decide

/-- C4 witness: the rule applied at position 2 of the scenario bars yields
the Top fractal. -/
theorem fractal_marking_rule_witness :
    ∃ f ∈ identifyFenxingsRaw fractalSampleBars, f.index = 2 ∧ f.type = FenXingType.top := by
  have h := (fractal_marking_rule.1 fractalSampleBars 2 ⟨"d1", 10, 11, 10, 10⟩
    ⟨"d2", 11, 12, 11, 11⟩ ⟨"d3", 10, 11, 10, 10⟩ (by omega) (by decide) (by decide)
    (by decide)).1
  exact h.mpr (by decide)

/-- C5: every stroke the builder emits joins an opposite-type fractal pair,
goes Up exactly when its start is a Bottom, and has
strength = |end.price − start.price| / start.price and
length = end.index − start.index; the scenario fractals Bottom@0 price 8,
Top@2 price 12, Bottom@4 price 9 yield exactly the two strokes
Up (strength 0.5) and Down (strength 0.25). -/
theorem stroke_construction_rule :
    (∀ (l : List FenXing), ∀ bi ∈ constructBis l,
      ((bi.start_fenxing.type = FenXingType.bottom ∧ bi.end_fenxing.type = FenXingType.top ∧
          bi.direction = "up") ∨
       (bi.start_fenxing.type = FenXingType.top ∧ bi.end_fenxing.type = FenXingType.bottom ∧
          bi.direction = "down")) ∧
      bi.strength = |bi.end_fenxing.price - bi.start_fenxing.price| / bi.start_fenxing.price ∧
      bi.length = (bi.end_fenxing.index : ℤ) - (bi.start_fenxing.index : ℤ)) ∧
    constructBis strokeSampleFenxings =
      [⟨⟨0, "d0", 8, FenXingType.bottom, 9, 8, 8⟩, ⟨2, "d2", 12, FenXingType.top, 12, 11, 12⟩,
         "up", 1/2, 2⟩,
       ⟨⟨2, "d2", 12, FenXingType.top, 12, 11, 12⟩, ⟨4, "d4", 9, FenXingType.bottom, 10, 9, 9⟩,
         "down", 1/4, 2⟩] := by
  constructor
  · intro l
    induction l with
    | nil => intro bi hbi; simp [constructBis] at hbi
    | cons a tail ih =>
      intro bi hbi
      cases tail with
      | nil => simp [constructBis] at hbi
      | cons b rest =>
        rw [constructBis_cons_cons] at hbi
        cases hmk : mkBi a b with
        | none => rw [hmk] at hbi; exact ih bi hbi
        | some bi0 =>
          rw [hmk] at hbi
          rcases List.mem_cons.mp hbi with h | h
          · subst h
            unfold mkBi at hmk
            split_ifs at hmk with h1 h2
            · injection hmk with hmk
              rw [← hmk]
              exact ⟨Or.inl ⟨h1.1, h1.2, rfl⟩, rfl, rfl⟩
            · injection hmk with hmk
              rw [← hmk]
              exact ⟨Or.inr ⟨h2.1, h2.2, rfl⟩, rfl, rfl⟩
          · exact ih bi h
  · norm_num +decide [constructBis, strokeSampleFenxings, mkBi]

/-- C5 witness: the first emitted scenario stroke satisfies the stroke
invariants. -/
theorem stroke_construction_rule_witness :
    (((⟨⟨0, "d0", 8, FenXingType.bottom, 9, 8, 8⟩, ⟨2, "d2", 12, FenXingType.top, 12, 11, 12⟩,
        "up", 1/2, 2⟩ : Bi).start_fenxing.type = FenXingType.bottom ∧
      (⟨⟨0, "d0", 8, FenXingType.bottom, 9, 8, 8⟩, ⟨2, "d2", 12, FenXingType.top, 12, 11, 12⟩,
        "up", 1/2, 2⟩ : Bi).end_fenxing.type = FenXingType.top ∧
      (⟨⟨0, "d0", 8, FenXingType.bottom, 9, 8, 8⟩, ⟨2, "d2", 12, FenXingType.top, 12, 11, 12⟩,
        "up", 1/2, 2⟩ : Bi).direction = "up") ∨
     ((⟨⟨0, "d0", 8, FenXingType.bottom, 9, 8, 8⟩, ⟨2, "d2", 12, FenXingType.top, 12, 11, 12⟩,
        "up", 1/2, 2⟩ : Bi).start_fenxing.type = FenXingType.top ∧
      (⟨⟨0, "d0", 8, FenXingType.bottom, 9, 8, 8⟩, ⟨2, "d2", 12, FenXingType.top, 12, 11, 12⟩,
        "up", 1/2, 2⟩ : Bi).end_fenxing.type = FenXingType.bottom ∧
      (⟨⟨0, "d0", 8, FenXingType.bottom, 9, 8, 8⟩, ⟨2, "d2", 12, FenXingType.top, 12, 11, 12⟩,
        "up", 1/2, 2⟩ : Bi).direction = "down")) ∧
    (⟨⟨0, "d0", 8, FenXingType.bottom, 9, 8, 8⟩, ⟨2, "d2", 12, FenXingType.top, 12, 11, 12⟩,
      "up", 1/2, 2⟩ : Bi).strength =
      |(⟨⟨0, "d0", 8, FenXingType.bottom, 9, 8, 8⟩, ⟨2, "d2", 12, FenXingType.top, 12, 11, 12⟩,
        "up", 1/2, 2⟩ : Bi).end_fenxing.price -
        (⟨⟨0, "d0", 8, FenXingType.bottom, 9, 8, 8⟩, ⟨2, "d2", 12, FenXingType.top, 12, 11, 12⟩,
          "up", 1/2, 2⟩ : Bi).start_fenxing.price| /
        (⟨⟨0, "d0", 8, FenXingType.bottom, 9, 8, 8⟩, ⟨2, "d2", 12, FenXingType.top, 12, 11, 12⟩,
          "up", 1/2, 2⟩ : Bi).start_fenxing.price ∧
    (⟨⟨0, "d0", 8, FenXingType.bottom, 9, 8, 8⟩, ⟨2, "d2", 12, FenXingType.top, 12, 11, 12⟩,
      "up", 1/2, 2⟩ : Bi).length =
      ((⟨⟨0, "d0", 8, FenXingType.bottom, 9, 8, 8⟩, ⟨2, "d2", 12, FenXingType.top, 12, 11, 12⟩,
        "up", 1/2, 2⟩ : Bi).end_fenxing.index : ℤ) -
        ((⟨⟨0, "d0", 8, FenXingType.bottom, 9, 8, 8⟩, ⟨2, "d2", 12, FenXingType.top, 12, 11, 12⟩,
          "up", 1/2, 2⟩ : Bi).start_fenxing.index : ℤ) := by
  apply stroke_construction_rule.1 strokeSampleFenxings
  norm_num +decide [constructBis, strokeSampleFenxings, mkBi]

/-- C6: with at least two strokes, divergence is reported iff the last two
strokes share a direction, the last one reaches a higher extreme (Up) or a
lower extreme (Down) than the prior, and last.strength < prior.strength × 0.8;
the reported strength then equals |last.strength − prior.strength| /
prior.strength, and with fewer than two strokes nothing is reported. -/
theorem divergence_rule :
    (∀ (bis : List Bi) (last_bi prev_bi : Bi) (rest : List Bi),
      bis.reverse = last_bi :: prev_bi :: rest →
      ((last_bi.direction = "up" →
        ((analyzeBeichi bis).has_beichi = true ↔
          (prev_bi.direction = "up" ∧ last_bi.end_fenxing.price > prev_bi.end_fenxing.price ∧
            last_bi.strength < prev_bi.strength * (8/10)))) ∧
       (last_bi.direction = "down" →
        ((analyzeBeichi bis).has_beichi = true ↔
          (prev_bi.direction = "down" ∧ last_bi.end_fenxing.price < prev_bi.end_fenxing.price ∧
            last_bi.strength < prev_bi.strength * (8/10)))) ∧
       ((analyzeBeichi bis).has_beichi = true →
        (analyzeBeichi bis).strength =
          |last_bi.strength - prev_bi.strength| / prev_bi.strength))) ∧
    (∀ bis : List Bi, bis.length < 2 → analyzeBeichi bis = ⟨false, none, 0⟩) := by
  constructor
  · intro bis last_bi prev_bi rest hrev
    have hab : analyzeBeichi bis =
        (if last_bi.direction ≠ prev_bi.direction then ⟨false, none, 0⟩
         else if last_bi.direction = "up" then
           if last_bi.end_fenxing.price > prev_bi.end_fenxing.price ∧
               last_bi.strength < prev_bi.strength * (8/10) then
             ⟨true, some "上涨背驰", |last_bi.strength - prev_bi.strength| / prev_bi.strength⟩
           else ⟨false, none, |last_bi.strength - prev_bi.strength| / prev_bi.strength⟩
         else
           if last_bi.end_fenxing.price < prev_bi.end_fenxing.price ∧
               last_bi.strength < prev_bi.strength * (8/10) then
             ⟨true, some "下跌背驰", |last_bi.strength - prev_bi.strength| / prev_bi.strength⟩
           else ⟨false, none, |last_bi.strength - prev_bi.strength| / prev_bi.strength⟩) := by
      unfold analyzeBeichi
      rw [hrev]
    refine ⟨?_, ?_, ?_⟩
    · intro hup
      by_cases hpd : last_bi.direction = prev_bi.direction
      · rw [hab, if_neg (not_not_intro hpd), if_pos hup]
        by_cases hcond : last_bi.end_fenxing.price > prev_bi.end_fenxing.price ∧
            last_bi.strength < prev_bi.strength * (8/10)
        · rw [if_pos hcond]
          exact ⟨fun _ => ⟨hpd.symm.trans hup, hcond.1, hcond.2⟩, fun _ => rfl⟩
        · rw [if_neg hcond]
          exact ⟨fun h => absurd h (by simp), fun h => absurd ⟨h.2.1, h.2.2⟩ hcond⟩
      · rw [hab, if_pos hpd]
        exact ⟨fun h => absurd h (by simp),
          fun h => absurd (hup.trans h.1.symm) hpd⟩
    · intro hdown
      have hnup : ¬ last_bi.direction = "up" := by
        rw [hdown]; decide
      by_cases hpd : last_bi.direction = prev_bi.direction
      · rw [hab, if_neg (not_not_intro hpd), if_neg hnup]
        by_cases hcond : last_bi.end_fenxing.price < prev_bi.end_fenxing.price ∧
            last_bi.strength < prev_bi.strength * (8/10)
        · rw [if_pos hcond]
          exact ⟨fun _ => ⟨hpd.symm.trans hdown, hcond.1, hcond.2⟩, fun _ => rfl⟩
        · rw [if_neg hcond]
          exact ⟨fun h => absurd h (by simp), fun h => absurd ⟨h.2.1, h.2.2⟩ hcond⟩
      · rw [hab, if_pos hpd]
        exact ⟨fun h => absurd h (by simp),
          fun h => absurd (hdown.trans h.1.symm) hpd⟩
    · intro h
      rw [hab] at h ⊢
      split_ifs at h ⊢ <;> rfl
  · intro bis hlen
    rcases bis with _ | ⟨a, _ | ⟨b, t⟩⟩
    · rfl
    · rfl
    · simp only [List.length_cons] at hlen
      omega

/-- C6 witness: two concrete same-direction Down strokes with a lower low and
less than 0.8x the prior strength: divergence is reported with
strength (|1/10 − 1/2|) / (1/2) = 4/5. -/
theorem divergence_rule_witness :
    (analyzeBeichi beichiSampleBis).has_beichi = true ∧
    (analyzeBeichi beichiSampleBis).strength = 4/5 := by
  have h := divergence_rule.1 beichiSampleBis
    ⟨⟨4, "c", 7, FenXingType.top, 7, 6, 7⟩, ⟨6, "d", 5, FenXingType.bottom, 6, 5, 5⟩,
      "down", 1/10, 2⟩
    ⟨⟨0, "a", 8, FenXingType.top, 8, 7, 8⟩, ⟨2, "b", 6, FenXingType.bottom, 7, 6, 6⟩,
      "down", 1/2, 2⟩
    [] rfl
  have hhas := (h.2.1 rfl).mpr ⟨rfl, by norm_num, by norm_num⟩
  refine ⟨hhas, ?_⟩
  rw [h.2.2 hhas]
  rw [show |(1:ℚ)/10 - 1/2| = 2/5 from by rw [abs_of_nonpos (by norm_num)]; norm_num]
  norm_num

/-- C7: the Tushare normalizer multiplies the upstream volume (lots) by 100
and the upstream amount (thousand-yuan) by 1000 on every row; the scenario
row with vol=1000 and amount=5000 becomes volume=100000 shares and
amount=5000000 yuan. -/
theorem tushare_unit_conversion :
    (∀ (stock_code : String) (r : TushareRawRow),
      (tushareNormalizeRow stock_code r).volume = r.vol * 100 ∧
      (tushareNormalizeRow stock_code r).amount = r.amount * 1000) ∧
    (∀ (df : List TushareRawRow) (stock_code : String),
      (tushareNormalizeData df stock_code).map CanonicalRow.volume =
        df.map (fun r => r.vol * 100) ∧
      (tushareNormalizeData df stock_code).map CanonicalRow.amount =
        df.map (fun r => r.amount * 1000)) ∧
    (tushareNormalizeRow "000001" tushareSampleRow).volume = 100000 ∧
    (tushareNormalizeRow "000001" tushareSampleRow).amount = 5000000 := by
  refine ⟨fun _ _ => ⟨rfl, rfl⟩, fun df stock_code => ?_, ?_, ?_⟩
  · constructor <;> simp [tushareNormalizeData, tushareNormalizeRow]
  · norm_num [tushareNormalizeRow, tushareSampleRow]
  · norm_num [tushareNormalizeRow, tushareSampleRow]

/-- C9: whatever the outcomes of login and query — successful login and
query, login raising, login returning a non-zero error code, or the query
raising — the session's trace begins with the login call and ends with the
logout call, so logout runs before the fetch returns or propagates. -/
theorem baostock_logout_on_every_path :
    ∀ (loginAct logoutOutcome : Except PyExc BSResult)
      (queryAct : Except PyExc BSQueryResult) (stock_code : String),
      (baostockFetchRawData loginAct logoutOutcome queryAct stock_code).2.getLast? =
        some BSEvent.logoutCall ∧
      (baostockFetchRawData loginAct logoutOutcome queryAct stock_code).2.head? =
        some BSEvent.loginCall := by
  intro loginAct logoutOutcome queryAct stock_code
  cases loginAct with
  | error e => exact ⟨rfl, rfl⟩
  | ok lr =>
    by_cases hcode : lr.error_code = "0"
    · cases queryAct with
      | error e =>
        simp [baostockFetchRawData, baostockSession, baostockQueryBody, hcode]
      | ok rs =>
        simp [baostockFetchRawData, baostockSession, baostockQueryBody, hcode]
    · simp [baostockFetchRawData, baostockSession, hcode]

/-- C2 (amended): the score is 50, +20/−20 for an Up/Down trend, +15 for down
divergence and −15 for up divergence, then +5 per buy and −5 per sell among
the points whose
*bar index* is at least (number of points − 10) — the filter the source
actually applies in place of "the final 10 signals" — clamped to [0, 100]. -/
theorem chanlun_score_formula :
    ∀ (trend_type : TrendType) (beichi_analysis : BeichiReport)
      (buy_sell_points : List BuySellPoint),
      calculateChanlunScore trend_type beichi_analysis buy_sell_points =
        max 0 (min 100 ((50 : ℚ) +
          (if trend_type = TrendType.up then 20
           else if trend_type = TrendType.down then -20 else 0) +
          (if beichi_analysis.has_beichi = true ∧
              beichi_analysis.type = some "下跌背驰" then 15
           else if beichi_analysis.has_beichi = true ∧
              beichi_analysis.type = some "上涨背驰" then -15
           else 0) +
          5 * ((buy_sell_points.filter fun p =>
              (p.index : ℤ) ≥ (buy_sell_points.length : ℤ) - 10).countP
              fun p => pyInStr buyChar p.type.value) -
          5 * ((buy_sell_points.filter fun p =>
              (p.index : ℤ) ≥ (buy_sell_points.length : ℤ) - 10).countP
              fun p => pyInStr sellChar p.type.value))) := by
  intro trend_type beichi_analysis buy_sell_points
  simp only [calculateChanlunScore]
  have htrend : (if trend_type = TrendType.up then (50:ℚ) + 20
      else if trend_type = TrendType.down then 50 - 20 else 50) =
      50 + (if trend_type = TrendType.up then 20
        else if trend_type = TrendType.down then -20 else 0) := by
    rcases trend_type <;> norm_num +decide
  rw [htrend]
  have hbeichi : ∀ s : ℚ, (if beichi_analysis.has_beichi = true then
      (if beichi_analysis.type = some "下跌背驰" then s + 15
       else if beichi_analysis.type = some "上涨背驰" then s - 15 else s) else s) =
      s + (if beichi_analysis.has_beichi = true ∧
            beichi_analysis.type = some "下跌背驰" then 15
          else if beichi_analysis.has_beichi = true ∧
            beichi_analysis.type = some "上涨背驰" then -15
          else 0) := by
    intro s
    by_cases h1 : beichi_analysis.has_beichi = true
    · by_cases h2 : beichi_analysis.type = some "下跌背驰"
      · simp [h1, h2]
      · by_cases h3 : beichi_analysis.type = some "上涨背驰"
        · simp [h1, h2, h3]
          ring
        · simp [h1, h2, h3]
    · simp [h1]
  rw [hbeichi]
  have hbuy : ∀ (s : ℚ) (l : List BuySellPoint),
      (if l ≠ [] then s + l.length * 5 else s) = s + l.length * 5 := by
    intro s l
    rcases l with _ | ⟨x, xs⟩ <;> simp
  have hsell : ∀ (s : ℚ) (l : List BuySellPoint),
      (if l ≠ [] then s - l.length * 5 else s) = s - l.length * 5 := by
    intro s l
    rcases l with _ | ⟨x, xs⟩ <;> simp
  rw [hbuy, hsell, List.countP_eq_length_filter, List.countP_eq_length_filter]
  ring_nf

/-- C2 counterexample: eleven buy points at bar indices 1..11 with a Down
trend and no divergence.  "+5 per buy signal among the final 10 signals"
(the claim, rendered by `specFinalTenScore`) gives 50 − 20 + 50 = 80, but
the code's filter `p.index >= len(points) − 10` keeps all eleven points and
yields 85. -/
theorem chanlun_score_final_ten_counterexample :
    calculateChanlunScore TrendType.down ⟨false, none, 0⟩ elevenBuyPoints = 85 ∧
    specFinalTenScore TrendType.down ⟨false, none, 0⟩ elevenBuyPoints = 80 ∧
    calculateChanlunScore TrendType.down ⟨false, none, 0⟩ elevenBuyPoints ≠
      specFinalTenScore TrendType.down ⟨false, none, 0⟩ elevenBuyPoints := by
  refine ⟨?_, ?_, ?_⟩
  · norm_num +decide [calculateChanlunScore, elevenBuyPoints, List.range_succ, pyInStr,
      containsSub, BuySellPointType.value, buyChar, sellChar]
  · norm_num +decide [specFinalTenScore, elevenBuyPoints, List.range_succ, pyInStr,
      containsSub, BuySellPointType.value, buyChar, sellChar]
  · intro heq
    rw [show calculateChanlunScore TrendType.down ⟨false, none, 0⟩ elevenBuyPoints = 85 from
        by norm_num +decide [calculateChanlunScore, elevenBuyPoints, List.range_succ, pyInStr,
          containsSub, BuySellPointType.value, buyChar, sellChar],
      show specFinalTenScore TrendType.down ⟨false, none, 0⟩ elevenBuyPoints = 80 from
        by norm_num +decide [specFinalTenScore, elevenBuyPoints, List.range_succ, pyInStr,
          containsSub, BuySellPointType.value, buyChar, sellChar]] at heq
    norm_num at heq

/-- Decimal digit characters are not whitespace. -/
theorem digit_char_not_ws {c : Char} (h : c ∈ digitChars) : c.isWhitespace = false := by
  fin_cases h <;> decide

/-- `str.upper()` leaves decimal digits unchanged. -/
theorem digit_char_toUpper {c : Char} (h : c ∈ digitChars) : c.toUpper = c := by
  fin_cases h <;> decide

/-- `str.strip()` is the identity on digit-only strings. -/
theorem pyStrip_digits {s : List Char} (h : ∀ c ∈ s, c ∈ digitChars) : pyStrip s = s := by
  unfold pyStrip
  have h1 : s.dropWhile Char.isWhitespace = s := by
    cases s with
    | nil => rfl
    | cons c rest =>
      rw [List.dropWhile_cons, digit_char_not_ws (h c (by simp))]
      simp
  rw [h1]
  have h2 : s.reverse.dropWhile Char.isWhitespace = s.reverse := by
    cases hsr : s.reverse with
    | nil => rfl
    | cons c rest =>
      have hc : c ∈ s := by rw [← List.mem_reverse, hsr]; simp
      rw [List.dropWhile_cons, digit_char_not_ws (h c hc)]
      simp
  rw [h2, List.reverse_reverse]

/-- A digit-only string contains no dot. -/
theorem contains_dot_eq_false {s : List Char} (h : ∀ c ∈ s, c ∈ digitChars) :
    s.contains '.' = false := by
  cases hcb : s.contains '.' with
  | false => rfl
  | true => exact absurd (h '.' (List.elem_iff.mp hcb)) (by decide)

/-- A pattern starting with a non-digit character never prefixes a digit-only
string. -/
theorem isPrefixOf_eq_false_of_head {x : Char} {p s : List Char}
    (hx : x ∉ digitChars) (h : ∀ c ∈ s, c ∈ digitChars) :
    (x :: p).isPrefixOf s = false := by
  cases hpre : (x :: p).isPrefixOf s with
  | false => rfl
  | true =>
    obtain ⟨t, ht⟩ := List.isPrefixOf_iff_prefix.mp hpre
    have hxs : x ∈ s := by rw [← ht]; simp
    exact absurd (h x hxs) hx

/-- `str.replace` with a dot-leading pattern is the identity on digit-only
strings (any fuel). -/
theorem pyReplaceAux_digits {ps rep : List Char} :
    ∀ (fuel : ℕ) (s : List Char), (∀ c ∈ s, c ∈ digitChars) →
    pyReplaceAux ('.' :: ps) rep fuel s = s := by
  intro fuel
  induction fuel with
  | zero => intro s _; cases s <;> rfl
  | succ fuel ih =>
    intro s h
    cases s with
    | nil => rfl
    | cons c rest =>
      unfold pyReplaceAux
      rw [if_neg]
      · rw [ih rest (fun d hd => h d (List.mem_cons_of_mem _ hd))]
      · rintro ⟨-, hpre⟩
        rw [isPrefixOf_eq_false_of_head (by decide) h] at hpre
        exact Bool.noConfusion hpre

/-- `str.replace` with a dot-leading pattern is the identity on digit-only
strings. -/
theorem pyReplace_digits (ps : List Char) {rep s : List Char}
    (h : ∀ c ∈ s, c ∈ digitChars) : pyReplace ('.' :: ps) rep s = s :=
  pyReplaceAux_digits s.length s h

/-- `str.upper()` is the identity on digit-only strings. -/
theorem pyUpper_digits {s : List Char} (h : ∀ c ∈ s, c ∈ digitChars) : pyUpper s = s := by
  unfold pyUpper
  rw [List.map_congr_left (fun c hc => digit_char_toUpper (h c hc)), List.map_id']

/-- A digit-only string has no dot-leading substring. -/
theorem containsSub_dot_eq_false {ps s : List Char} (h : ∀ c ∈ s, c ∈ digitChars) :
    containsSub ('.' :: ps) s = false := by
  induction s with
  | nil => rfl
  | cons c rest ih =>
    unfold containsSub
    rw [isPrefixOf_eq_false_of_head (by decide) h,
      ih (fun d hd => h d (List.mem_cons_of_mem _ hd))]
    rfl

/-- `startswith` on a tuple succeeds when one listed prefix matches. -/
theorem startsWithAny_of_mem {ps : List (List Char)} {p s : List Char}
    (hp : p ∈ ps) (hpre : p.isPrefixOf s = true) : startsWithAny ps s = true := by
  unfold startsWithAny
  rw [List.any_eq_true]
  exact ⟨p, hp, hpre⟩

/-- On digit-only codes the `('sh', 'sz')` prefix test of the Tencent adapter
fails. -/
theorem startsWithAny_shsz_eq_false {s : List Char} (h : ∀ c ∈ s, c ∈ digitChars) :
    startsWithAny [['s','h'], ['s','z']] s = false := by
  unfold startsWithAny
  simp only [List.any_cons, List.any_nil,
    isPrefixOf_eq_false_of_head (x := 's') (by decide) h, Bool.or_false, Bool.or_self]

/-- A code starting with one of 000/002/300 also passes the Tencent
Shenzhen-prefix test (which adds 301). -/
theorem szShort_imp_tencent {s : List Char} (h : startsWithAny szPrefixesShort s = true) :
    startsWithAny szPrefixesTencent s = true := by
  rcases List.any_eq_true.mp h with ⟨p, hp, hpre⟩
  refine startsWithAny_of_mem ?_ hpre
  simp only [szPrefixesShort, List.mem_cons, List.not_mem_nil, or_false] at hp
  rcases hp with rfl | rfl | rfl <;> decide

/-- A code starting with one of 000/002/300 fails the Shanghai-prefix test. -/
theorem sh_eq_false_of_szShort {s : List Char} (h : startsWithAny szPrefixesShort s = true) :
    startsWithAny shPrefixes s = false := by
  rcases List.any_eq_true.mp h with ⟨p, hp, hpre⟩
  simp only [szPrefixesShort, List.mem_cons, List.not_mem_nil, or_false] at hp
  rcases hp with rfl | rfl | rfl <;>
  · obtain ⟨t, rfl⟩ := List.isPrefixOf_iff_prefix.mp hpre
    simp +decide [startsWithAny, shPrefixes, List.isPrefixOf]

/-- On digit-only codes `TushareFetcher._convert_stock_code` reduces to its
prefix dispatch. -/
theorem tushareConvert_digits {s : List Char} (h : ∀ c ∈ s, c ∈ digitChars) :
    tushareConvertStockCode s =
      (if startsWithAny shPrefixes s then (s ++ ['.','S','H'], false)
       else if startsWithAny szPrefixesShort s then (s ++ ['.','S','Z'], false)
       else (s ++ ['.','S','Z'], true)) := by
  simp only [tushareConvertStockCode, pyStrip_digits h, contains_dot_eq_false h,
    Bool.false_eq_true, if_false]

/-- On digit-only codes `TencentFetcher._convert_stock_code` reduces to its
prefix dispatch. -/
theorem tencentConvert_digits {s : List Char} (h : ∀ c ∈ s, c ∈ digitChars) :
    tencentConvertStockCode s =
      (if startsWithAny shPrefixes s then (['s','h'] ++ s, false)
       else if startsWithAny szPrefixesTencent s then (['s','z'] ++ s, false)
       else (['s','z'] ++ s, true)) := by
  simp only [tencentConvertStockCode, pyStrip_digits h, startsWithAny_shsz_eq_false h,
    Bool.false_eq_true, if_false]
  rw [pyReplace_digits ['S','H'] h, pyReplace_digits ['S','Z'] h,
    pyReplace_digits ['s','h'] h, pyReplace_digits ['s','z'] h]

/-- On digit-only codes `YfinanceFetcher._convert_stock_code` reduces to its
prefix dispatch. -/
theorem yfinanceConvert_digits {s : List Char} (h : ∀ c ∈ s, c ∈ digitChars) :
    yfinanceConvertStockCode s =
      (if startsWithAny shPrefixes s then (s ++ ['.','S','S'], false)
       else if startsWithAny szPrefixesShort s then (s ++ ['.','S','Z'], false)
       else (s ++ ['.','S','Z'], true)) := by
  simp only [yfinanceConvertStockCode, pyStrip_digits h, pyUpper_digits h,
    containsSub_dot_eq_false h, Bool.or_self, Bool.false_eq_true, if_false]
  rw [pyReplace_digits ['S','H'] h, pyReplace_digits ['s','h'] h]

/-- C8 (amended): on 6-digit numeric codes, prefixes 600/601/603/688 map to
each adapter's Shanghai form without a warning; prefixes 000/002/300 map to
each adapter's Shenzhen form without a warning; prefix 301 is recognized
(Shenzhen form, no warning) only by the Tencent adapter, while the Tushare
and Yfinance adapters map it to the Shenzhen form through the warning
default branch; every remaining prefix maps to the Shenzhen form with a
warning in all three adapters. -/
theorem code_market_conversion :
    ∀ code : List Char, (∀ c ∈ code, c ∈ digitChars) → code.length = 6 →
    ((startsWithAny shPrefixes code = true →
        tushareConvertStockCode code = (code ++ ['.','S','H'], false) ∧
        tencentConvertStockCode code = (['s','h'] ++ code, false) ∧
        yfinanceConvertStockCode code = (code ++ ['.','S','S'], false)) ∧
     (startsWithAny szPrefixesShort code = true →
        tushareConvertStockCode code = (code ++ ['.','S','Z'], false) ∧
        tencentConvertStockCode code = (['s','z'] ++ code, false) ∧
        yfinanceConvertStockCode code = (code ++ ['.','S','Z'], false)) ∧
     (['3','0','1'].isPrefixOf code = true →
        tencentConvertStockCode code = (['s','z'] ++ code, false) ∧
        tushareConvertStockCode code = (code ++ ['.','S','Z'], true) ∧
        yfinanceConvertStockCode code = (code ++ ['.','S','Z'], true)) ∧
     (startsWithAny shPrefixes code = false → startsWithAny szPrefixesTencent code = false →
        tushareConvertStockCode code = (code ++ ['.','S','Z'], true) ∧
        tencentConvertStockCode code = (['s','z'] ++ code, true) ∧
        yfinanceConvertStockCode code = (code ++ ['.','S','Z'], true))) := by
  intro code h _
  refine ⟨?_, ?_, ?_, ?_⟩
  · intro hsh
    rw [tushareConvert_digits h, tencentConvert_digits h, yfinanceConvert_digits h, hsh]
    simp
  · intro hsz
    have hshF := sh_eq_false_of_szShort hsz
    have hszT := szShort_imp_tencent hsz
    rw [tushareConvert_digits h, tencentConvert_digits h, yfinanceConvert_digits h,
      hsz, hshF, hszT]
    simp
  · intro h301
    have hszTT : startsWithAny szPrefixesTencent code = true :=
      startsWithAny_of_mem (by decide) h301
    obtain ⟨t, rfl⟩ := List.isPrefixOf_iff_prefix.mp h301
    have hshF : startsWithAny shPrefixes (['3','0','1'] ++ t) = false := by
      simp +decide [startsWithAny, shPrefixes, List.isPrefixOf]
    have hszSF : startsWithAny szPrefixesShort (['3','0','1'] ++ t) = false := by
      simp +decide [startsWithAny, szPrefixesShort, List.isPrefixOf]
    rw [tushareConvert_digits h, tencentConvert_digits h, yfinanceConvert_digits h,
      hshF, hszSF, hszTT]
    simp
  · intro hshF hszTF
    have hszSF : startsWithAny szPrefixesShort code = false := by
      cases hv : startsWithAny szPrefixesShort code
      · rfl
      · rw [szShort_imp_tencent hv] at hszTF
        exact hszTF
    rw [tushareConvert_digits h, tencentConvert_digits h, yfinanceConvert_digits h,
      hshF, hszSF, hszTF]
    simp

/-- C8 counterexample: the claim places prefix 301 among the recognized
Shenzhen prefixes of every adapter, with the logged-warning default reserved
for other prefixes; on "301234" the Tushare and Yfinance converters take the
warning default branch (their prefix tuples omit '301'), while only the
Tencent converter recognizes it. -/
theorem code_market_conversion_counterexample :
    (tushareConvertStockCode code301).2 = true ∧
    (yfinanceConvertStockCode code301).2 = true ∧
    (tencentConvertStockCode code301).2 = false := by
  refine ⟨?_, ?_, ?_⟩ <;> decide

/-- C8 witness: the amended theorem applied to the concrete codes "301234"
(301 branch) and "600519" (Shanghai branch). -/
theorem code_market_conversion_witness :
    (tencentConvertStockCode code301 = (['s','z'] ++ code301, false) ∧
      tushareConvertStockCode code301 = (code301 ++ ['.','S','Z'], true) ∧
      yfinanceConvertStockCode code301 = (code301 ++ ['.','S','Z'], true)) ∧
    (tushareConvertStockCode ['6','0','0','5','1','9'] =
        (['6','0','0','5','1','9'] ++ ['.','S','H'], false) ∧
      tencentConvertStockCode ['6','0','0','5','1','9'] =
        (['s','h'] ++ ['6','0','0','5','1','9'], false) ∧
      yfinanceConvertStockCode ['6','0','0','5','1','9'] =
        (['6','0','0','5','1','9'] ++ ['.','S','S'], false)) := by
  constructor
  · exact (code_market_conversion code301 (by decide) (by decide)).2.2.1 (by decide)
  · exact (code_market_conversion ['6','0','0','5','1','9'] (by decide) (by decide)).1 (by decide)
